import Mathlib

/-!
# walkie: registries, audio fan-out and the windowed transcription buffer

A shallow embedding of `internal/client/client.go`.

* A `*websocket.Conn` is represented by its identity (a natural number).
* `audioClients` and `speechClients` are Go maps `map[*websocket.Conn]bool`
  whose values are always `true`; they are represented by their key sets.
* `for client := range m` visits the keys of `m` in an order chosen by the
  runtime.  The loops take that order as an argument (`order`); a legal order
  is a duplicate-free enumeration of the key set (`IsRangeOrder`).  The loop
  bodies delete only the key being visited, so every key of the enumeration
  is produced.
* The outcome of `WriteMessage` is decided by the environment; it is an
  argument (`writeFails`) of the code that performs the write.
* `speech.StreamAudioToText` is an external call (bytes in, text or an error
  out); it is an argument (`stt`).  A Go `string` is a byte sequence and
  `[]byte(text)` is that sequence, so text is represented by its bytes.
* Every attempted `WriteMessage`, every `StreamAudioToText` call and every
  log line is recorded in the `World`, in program order.
-/

namespace Walkie

/-- Identity of a `*websocket.Conn`. -/
abbrev Conn := Nat

/-- Contents of a `[]byte` (a nil slice and an empty slice are both `[]`). -/
abbrev Bytes := List Nat

/-- The two frame types used by the program (`websocket.TextMessage`,
`websocket.BinaryMessage`). -/
inductive MessageType where
  | TextMessage
  | BinaryMessage
deriving DecidableEq, Repr

/-- One attempted `client.WriteMessage(messageType, data)`. -/
structure Frame where
  client : Conn
  messageType : MessageType
  data : Bytes
deriving DecidableEq, Repr

/-- The log statements of `client.go`, one constructor per call site. -/
inductive LogLine where
  | audioConnected      -- line 37
  | errReadAudio        -- line 42
  | errRelayAudio       -- line 54
  | errSendSpeech       -- line 69
  | audioDisconnected   -- line 84
  | speechConnected     -- line 99
  | errReadSpeech       -- line 109
  | noAudio             -- line 135
  | errTranscribe       -- line 142
  | errSendText         -- line 149
deriving DecidableEq, Repr

/-- The result of `speech.StreamAudioToText`: the text (as bytes) or an error. -/
abbrev SttResult := Except Unit Bytes

/-- Package-level state of `client.go` together with the observable effects. -/
structure World where
  /-- Keys of `audioClients` (line 20). -/
  audioClients : Finset Conn
  /-- Keys of `speechClients` (line 21). -/
  speechClients : Finset Conn
  /-- Connections on which `Close()` has been called. -/
  closed : Finset Conn
  /-- Every attempted `WriteMessage`, oldest first. -/
  writes : List Frame
  /-- The argument of every `StreamAudioToText` call, oldest first. -/
  sttCalls : List Bytes
  /-- Every log line, oldest first. -/
  logged : List LogLine
deriving DecidableEq

/-- The state at program start: both maps empty (lines 20-21). -/
def World.init : World :=
  { audioClients := ∅, speechClients := ∅, closed := ∅,
    writes := [], sttCalls := [], logged := [] }

/-- A legal iteration order of `range` over a map with key set `m`. -/
def IsRangeOrder (order : List Conn) (m : Finset Conn) : Prop :=
  order.Nodup ∧ order.toFinset = m

instance (order : List Conn) (m : Finset Conn) : Decidable (IsRangeOrder order m) := by
  unfold IsRangeOrder; infer_instance

/-- Body of the loop at lines 50-59, for one `client`. -/
def audioFanOutBody (ws : Conn) (audio : Bytes) (writeFails : Conn → Bool)
    (w : World) (client : Conn) : World :=
  if client ≠ ws then
    let w1 := { w with writes := w.writes ++ [Frame.mk client .BinaryMessage audio] }
    if writeFails client then
      { w1 with
        logged := w1.logged ++ [.errRelayAudio]
        closed := insert client w1.closed
        audioClients := w1.audioClients.erase client }
    else w1
  else w

/-- The goroutine at lines 47-60; it holds `mu` from start to end. -/
def audioFanOut (ws : Conn) (audio : Bytes) (order : List Conn)
    (writeFails : Conn → Bool) (w : World) : World :=
  order.foldl (audioFanOutBody ws audio writeFails) w

/-- Body of the loop at lines 66-73, for one `client`. -/
def speechFanOutBody (audio : Bytes) (writeFails : Conn → Bool)
    (w : World) (client : Conn) : World :=
  let w1 := { w with writes := w.writes ++ [Frame.mk client .BinaryMessage audio] }
  if writeFails client then
    { w1 with
      logged := w1.logged ++ [.errSendSpeech]
      closed := insert client w1.closed
      speechClients := w1.speechClients.erase client }
  else w1

/-- The goroutine at lines 63-74; it holds `mu` from start to end. -/
def speechFanOut (audio : Bytes) (order : List Conn)
    (writeFails : Conn → Bool) (w : World) : World :=
  order.foldl (speechFanOutBody audio writeFails) w

/-- Handling of one inbound chunk `audio` read from `ws` (lines 47-74): the
audio fan-out followed by the speech fan-out. -/
def handleChunk (ws : Conn) (audio : Bytes)
    (orderA : List Conn) (failA : Conn → Bool)
    (orderS : List Conn) (failS : Conn → Bool) (w : World) : World :=
  speechFanOut audio orderS failS (audioFanOut ws audio orderA failA w)

/-- Lines 33-37 of `HandleAudioConnections`: the upgraded connection is
put into `audioClients`. -/
def registerAudio (ws : Conn) (w : World) : World :=
  { w with
    audioClients := insert ws w.audioClients
    logged := w.logged ++ [.audioConnected] }

/-- Lines 95-99 of `HandleSpeechProcessing`: the upgraded connection is put
into `speechClients`. -/
def registerSpeech (ws : Conn) (w : World) : World :=
  { w with
    speechClients := insert ws w.speechClients
    logged := w.logged ++ [.speechConnected] }

/-- The exit of `HandleAudioConnections` after `ReadMessage` failed: lines
41-43, the removal at lines 80-84, then the deferred `ws.Close()` (line 31). -/
def audioTeardown (ws : Conn) (w : World) : World :=
  { w with
    audioClients := w.audioClients.erase ws
    logged := w.logged ++ [.errReadAudio, .audioDisconnected]
    closed := insert ws w.closed }

/-- The steps of the program that read or change the registries.  Each one
runs under `mu`, so they never overlap. -/
inductive Event where
  | registerAudio (ws : Conn)
  | registerSpeech (ws : Conn)
  | audioFanOut (ws : Conn) (audio : Bytes) (order : List Conn) (writeFails : Conn → Bool)
  | speechFanOut (audio : Bytes) (order : List Conn) (writeFails : Conn → Bool)
  | audioTeardown (ws : Conn)

/-- When a step can happen.  A connection returned by `upgrader.Upgrade` is
newly allocated, so it differs from every key held by the two maps; a `range`
loop follows a legal order of the map as it is when the loop starts. -/
def Event.enabled (w : World) : Event → Prop
  | .registerAudio ws => ws ∉ w.audioClients ∧ ws ∉ w.speechClients
  | .registerSpeech ws => ws ∉ w.audioClients ∧ ws ∉ w.speechClients
  | .audioFanOut _ _ order _ => IsRangeOrder order w.audioClients
  | .speechFanOut _ order _ => IsRangeOrder order w.speechClients
  | .audioTeardown _ => True

instance (w : World) (e : Event) : Decidable (e.enabled w) := by
  cases e <;> unfold Event.enabled <;> infer_instance

/-- The connection a step registers, if it is a registration. -/
def Event.registered : Event → Option Conn
  | .registerAudio ws => some ws
  | .registerSpeech ws => some ws
  | _ => none

/-- Effect of one step. -/
def step (w : World) : Event → World
  | .registerAudio ws => registerAudio ws w
  | .registerSpeech ws => registerSpeech ws w
  | .audioFanOut ws audio order writeFails => audioFanOut ws audio order writeFails w
  | .speechFanOut audio order writeFails => speechFanOut audio order writeFails w
  | .audioTeardown ws => audioTeardown ws w

/-- Effect of a sequence of steps. -/
def run (w : World) (evs : List Event) : World :=
  evs.foldl step w

/-- Every step of the sequence is enabled in the state it starts from. -/
def Valid : World → List Event → Prop
  | _, [] => True
  | w, e :: evs => e.enabled w ∧ Valid (step w e) evs

/-- The states the program can be in: those obtained from `World.init` by
enabled steps. -/
inductive Reachable : World → Prop where
  | init : Reachable World.init
  | step {w : World} (e : Event) : Reachable w → e.enabled w → Reachable (step w e)

/-- Lines 134-150 of `processAudioFragment`, run on the local copy
`audioData`. -/
def fragmentRest (stt : Bytes → SttResult) (writeFails : Bool) (ws : Conn)
    (audioData : Bytes) (w : World) : World :=
  if audioData.length = 0 then
    { w with logged := w.logged ++ [.noAudio] }
  else
    let w1 := { w with sttCalls := w.sttCalls ++ [audioData] }
    match stt audioData with
    | .error _ => { w1 with logged := w1.logged ++ [.errTranscribe] }
    | .ok text =>
      let w2 := { w1 with writes := w1.writes ++ [Frame.mk ws .TextMessage text] }
      if writeFails then { w2 with logged := w2.logged ++ [.errSendText] } else w2

/-- The function `processAudioFragment(ws, &audioBuffer)` run without
interruption: copy the buffer (lines 128-129), set it to nil (line 132), then
lines 134-150.  Returns the new world and the new contents of the buffer. -/
def processAudioFragment (stt : Bytes → SttResult) (writeFails : Bool) (ws : Conn)
    (w : World) (audioBuffer : Bytes) : World × Bytes :=
  let audioData := audioBuffer
  (fragmentRest stt writeFails ws audioData w, [])

/-- Local state of one invocation of `HandleSpeechProcessing`. -/
structure SpeechConn where
  /-- The connection of this invocation (line 88). -/
  ws : Conn
  /-- The variable `audioBuffer` (line 101). -/
  audioBuffer : Bytes
  /-- The ticker of line 102 has not been stopped. -/
  tickerRunning : Bool
  /-- The reader goroutine (lines 105-115) is still in its loop. -/
  readerRunning : Bool
deriving DecidableEq, Repr

/-- Lines 95-103 of `HandleSpeechProcessing`: register, declare the buffer,
start the ticker; then the reader goroutine is started (line 105). -/
def speechOpen (ws : Conn) (w : World) : World × SpeechConn :=
  (registerSpeech ws w,
    { ws := ws, audioBuffer := [], tickerRunning := true, readerRunning := true })

/-- What can happen on one speech connection after it is opened. -/
inductive SpeechEvent where
  /-- `ReadMessage` returns a chunk (line 107), which is appended (line 113). -/
  | recv (audioData : Bytes)
  /-- `ReadMessage` returns an error (lines 108-111). -/
  | readErr
  /-- The ticker fires (line 119) and `processAudioFragment` runs as one step. -/
  | tick (stt : Bytes → SttResult) (writeFails : Bool)

/-- Effect of one event on a speech connection.  After a read error the
reader goroutine leaves its loop and does nothing else; the handler stays in
the `for`/`select` of lines 117-123, which has no exit, so the deferred
`ticker.Stop()` and `ws.Close()` (lines 93, 103) are not run and nothing is
deleted from `speechClients`. -/
def speechStep (s : World × SpeechConn) : SpeechEvent → World × SpeechConn
  | .recv audioData =>
    if s.2.readerRunning then
      (s.1, { s.2 with audioBuffer := s.2.audioBuffer ++ audioData })
    else s
  | .readErr =>
    if s.2.readerRunning then
      ({ s.1 with logged := s.1.logged ++ [.errReadSpeech] }, { s.2 with readerRunning := false })
    else s
  | .tick stt writeFails =>
    if s.2.tickerRunning then
      let r := processAudioFragment stt writeFails s.2.ws s.1 s.2.audioBuffer
      (r.1, { s.2 with audioBuffer := r.2 })
    else s

/-- Effect of a sequence of events on a speech connection. -/
def speechRun (s : World × SpeechConn) (evs : List SpeechEvent) : World × SpeechConn :=
  evs.foldl speechStep s

/-- The events of one window: the chunks received, then the tick. -/
def windowEvents (win : List Bytes × (Bytes → SttResult) × Bool) : List SpeechEvent :=
  win.1.map SpeechEvent.recv ++ [SpeechEvent.tick win.2.1 win.2.2]

/-- State of a speech connection when the two statements of the drain are
separate steps: `locals` holds, for each running `processAudioFragment`
goroutine that has made its copy and not yet reset the buffer, its local
`audioData`. -/
structure FineState where
  world : World
  conn : SpeechConn
  locals : List (Nat × Bytes)

/-- Steps of a speech connection at statement granularity. -/
inductive FineEvent where
  /-- The reader appends a chunk (line 113). -/
  | recv (audioData : Bytes)
  /-- Goroutine `g` of `processAudioFragment` executes lines 128-129. -/
  | copy (g : Nat)
  /-- Goroutine `g` executes line 132 and then lines 134-150. -/
  | reset (g : Nat) (stt : Bytes → SttResult) (writeFails : Bool)

/-- Effect of one statement-level step. -/
def fineStep (s : FineState) : FineEvent → FineState
  | .recv audioData =>
    { s with conn := { s.conn with audioBuffer := s.conn.audioBuffer ++ audioData } }
  | .copy g => { s with locals := (g, s.conn.audioBuffer) :: s.locals }
  | .reset g stt writeFails =>
    match s.locals.lookup g with
    | none => s
    | some audioData =>
      { world := fragmentRest stt writeFails s.conn.ws audioData s.world
        conn := { s.conn with audioBuffer := [] }
        locals := s.locals.filter (fun p => p.1 ≠ g) }

/-- Effect of a sequence of statement-level steps. -/
def fineRun (s : FineState) (evs : List FineEvent) : FineState :=
  evs.foldl fineStep s

/-- One successful `ReadMessage` of the audio read loop (line 40) together
with what the environment decides for the two goroutines it starts: the
iteration orders and the outcomes of the writes. -/
structure AudioRead where
  audioData : Bytes
  orderA : List Conn
  failA : Conn → Bool
  orderS : List Conn
  failS : Conn → Bool

/-- The handler `HandleAudioConnections` for an upgraded connection `ws`, run
with no other handler interleaved: register (lines 33-35), then for every
chunk read the two fan-out loops (lines 47-74), then, when `ReadMessage`
fails, the teardown (lines 41-43, 80-84, 31).  When the upgrade itself fails
the handler returns at line 29 without touching any state. -/
def HandleAudioConnections (ws : Conn) (reads : List AudioRead) (w : World) : World :=
  audioTeardown ws
    (reads.foldl
      (fun w1 r => handleChunk ws r.audioData r.orderA r.failA r.orderS r.failS w1)
      (registerAudio ws w))

/-- The handler `HandleSpeechProcessing` for an upgraded connection `ws`:
its state after it has registered and started the ticker and the reader
(lines 95-115) and the events `evs` have happened.  After a successful
upgrade the handler has no return path (lines 117-123). -/
def HandleSpeechProcessing (ws : Conn) (evs : List SpeechEvent) (w : World) :
    World × SpeechConn :=
  speechRun (speechOpen ws w) evs

/-- The frame a fan-out loop writes to `c`. -/
def binaryFrame (audio : Bytes) (c : Conn) : Frame :=
  Frame.mk c .BinaryMessage audio

/-- Audio connections 1 and 2 and speech connection 7 are registered. -/
def scenarioWorld : World :=
  { World.init with audioClients := {1, 2}, speechClients := {7} }

/-- Audio connections 1, 2, 3 and speech connections 7, 8 are registered. -/
def poolsWorld : World :=
  { World.init with audioClients := {1, 2, 3}, speechClients := {7, 8} }

/-- The state after two audio registrations, a speech registration, an audio
fan-out from connection 1 in which the write to connection 2 fails, and the
teardown of connection 1. -/
def reachedWorld : World :=
  step (step (step (step (step World.init (.registerAudio 1)) (.registerAudio 2))
    (.registerSpeech 7)) (.audioFanOut 1 [5] [2, 1] (fun _ => true))) (.audioTeardown 1)

/-- Steps after the first broadcast of the eviction scenario: connection 3
registers as an audio client and sends a chunk (both loops), then connection 1
sends another chunk to the audio pool. -/
def laterEvents : List Event :=
  [.registerAudio 3,
   .audioFanOut 3 [4] [1, 3] (fun _ => false),
   .speechFanOut [4] [7] (fun _ => false),
   .audioFanOut 1 [5] [3, 1] (fun _ => false)]

/-! ## The fan-out loops -/

theorem audioFanOutBody_audioClients (ws : Conn) (audio : Bytes) (writeFails : Conn → Bool)
    (w : World) (client : Conn) :
    (audioFanOutBody ws audio writeFails w client).audioClients =
      if client ≠ ws ∧ writeFails client = true then w.audioClients.erase client
      else w.audioClients := by
  unfold audioFanOutBody
  by_cases h1 : client = ws <;> by_cases h2 : writeFails client = true <;> simp [h1, h2]

theorem audioFanOut_audioClients (ws : Conn) (audio : Bytes) (writeFails : Conn → Bool)
    (order : List Conn) (w : World) :
    (audioFanOut ws audio order writeFails w).audioClients =
      w.audioClients.filter
        (fun c => ¬ (c ∈ order ∧ c ≠ ws ∧ writeFails c = true)) := by
  unfold audioFanOut
  induction order generalizing w with
  | nil => simp
  | cons a t ih =>
    rw [List.foldl_cons, ih, audioFanOutBody_audioClients]
    ext c
    by_cases h : a ≠ ws ∧ writeFails a = true
    · rw [if_pos h]
      simp only [Finset.mem_filter, Finset.mem_erase, List.mem_cons]
      constructor
      · rintro ⟨⟨hca, hc⟩, hn⟩
        refine ⟨hc, ?_⟩
        rintro ⟨hm | hm, h2⟩
        · exact hca hm
        · exact hn ⟨hm, h2⟩
      · rintro ⟨hc, hn⟩
        refine ⟨⟨?_, hc⟩, ?_⟩
        · rintro rfl
          exact hn ⟨Or.inl rfl, h⟩
        · rintro ⟨hm, h2⟩
          exact hn ⟨Or.inr hm, h2⟩
    · rw [if_neg h]
      simp only [Finset.mem_filter, List.mem_cons]
      constructor
      · rintro ⟨hc, hn⟩
        refine ⟨hc, ?_⟩
        rintro ⟨hm | hm, h2⟩
        · subst hm
          exact h h2
        · exact hn ⟨hm, h2⟩
      · rintro ⟨hc, hn⟩
        exact ⟨hc, fun ⟨hm, h2⟩ => hn ⟨Or.inr hm, h2⟩⟩

theorem audioFanOut_speechClients (ws : Conn) (audio : Bytes) (writeFails : Conn → Bool)
    (order : List Conn) (w : World) :
    (audioFanOut ws audio order writeFails w).speechClients = w.speechClients := by
  unfold audioFanOut
  induction order generalizing w with
  | nil => rfl
  | cons a t ih =>
    rw [List.foldl_cons, ih]
    unfold audioFanOutBody
    by_cases h1 : a = ws <;> by_cases h2 : writeFails a = true <;> simp [h1, h2]

theorem audioFanOut_sttCalls (ws : Conn) (audio : Bytes) (writeFails : Conn → Bool)
    (order : List Conn) (w : World) :
    (audioFanOut ws audio order writeFails w).sttCalls = w.sttCalls := by
  unfold audioFanOut
  induction order generalizing w with
  | nil => rfl
  | cons a t ih =>
    rw [List.foldl_cons, ih]
    unfold audioFanOutBody
    by_cases h1 : a = ws <;> by_cases h2 : writeFails a = true <;> simp [h1, h2]

theorem audioFanOut_writes (ws : Conn) (audio : Bytes) (writeFails : Conn → Bool)
    (order : List Conn) (w : World) :
    (audioFanOut ws audio order writeFails w).writes =
      w.writes ++ (order.filter (fun c => c ≠ ws)).map (binaryFrame audio) := by
  unfold audioFanOut
  induction order generalizing w with
  | nil => simp
  | cons a t ih =>
    rw [List.foldl_cons, ih]
    unfold audioFanOutBody binaryFrame
    by_cases h1 : a = ws <;> by_cases h2 : writeFails a = true <;> simp [h1, h2]

theorem audioFanOut_closed (ws : Conn) (audio : Bytes) (writeFails : Conn → Bool)
    (order : List Conn) (w : World) (c : Conn) :
    c ∈ (audioFanOut ws audio order writeFails w).closed ↔
      c ∈ w.closed ∨ (c ∈ order ∧ c ≠ ws ∧ writeFails c = true) := by
  unfold audioFanOut
  induction order generalizing w with
  | nil => simp
  | cons a t ih =>
    rw [List.foldl_cons, ih]
    unfold audioFanOutBody
    by_cases h1 : a = ws <;> by_cases h2 : writeFails a = true
    · subst h1
      simp only [ne_eq, not_true_eq_false, if_false, List.mem_cons]
      constructor
      · rintro (h | ⟨hm, hne, hf⟩)
        · exact Or.inl h
        · exact Or.inr ⟨Or.inr hm, hne, hf⟩
      · rintro (h | ⟨hm | hm, hne, hf⟩)
        · exact Or.inl h
        · exact absurd hm hne
        · exact Or.inr ⟨hm, hne, hf⟩
    · subst h1
      simp only [ne_eq, not_true_eq_false, if_false, List.mem_cons]
      constructor
      · rintro (h | ⟨hm, hne, hf⟩)
        · exact Or.inl h
        · exact Or.inr ⟨Or.inr hm, hne, hf⟩
      · rintro (h | ⟨hm | hm, hne, hf⟩)
        · exact Or.inl h
        · exact absurd hm hne
        · exact Or.inr ⟨hm, hne, hf⟩
    · simp only [ne_eq, h1, not_false_eq_true, if_true, h2, Finset.mem_insert, List.mem_cons]
      constructor
      · rintro ((h | h) | ⟨hm, hne, hf⟩)
        · subst h
          exact Or.inr ⟨Or.inl rfl, h1, h2⟩
        · exact Or.inl h
        · exact Or.inr ⟨Or.inr hm, hne, hf⟩
      · rintro (h | ⟨hm | hm, hne, hf⟩)
        · exact Or.inl (Or.inr h)
        · exact Or.inl (Or.inl hm)
        · exact Or.inr ⟨hm, hne, hf⟩
    · simp only [ne_eq, h1, not_false_eq_true, if_true, h2, List.mem_cons]
      constructor
      · rintro (h | ⟨hm, hne, hf⟩)
        · exact Or.inl h
        · exact Or.inr ⟨Or.inr hm, hne, hf⟩
      · rintro (h | ⟨hm | hm, hne, hf⟩)
        · exact Or.inl h
        · subst hm
          exact absurd hf h2
        · exact Or.inr ⟨hm, hne, hf⟩

theorem speechFanOut_speechClients (audio : Bytes) (writeFails : Conn → Bool)
    (order : List Conn) (w : World) :
    (speechFanOut audio order writeFails w).speechClients =
      w.speechClients.filter (fun c => ¬ (c ∈ order ∧ writeFails c = true)) := by
  unfold speechFanOut
  induction order generalizing w with
  | nil => simp
  | cons a t ih =>
    rw [List.foldl_cons, ih]
    unfold speechFanOutBody
    ext c
    by_cases h : writeFails a = true
    · simp only [h, if_true, Finset.mem_filter, Finset.mem_erase, List.mem_cons]
      constructor
      · rintro ⟨⟨hca, hc⟩, hn⟩
        refine ⟨hc, ?_⟩
        rintro ⟨hm | hm, h2⟩
        · exact hca hm
        · exact hn ⟨hm, h2⟩
      · rintro ⟨hc, hn⟩
        refine ⟨⟨?_, hc⟩, ?_⟩
        · rintro rfl
          exact hn ⟨Or.inl rfl, h⟩
        · rintro ⟨hm, h2⟩
          exact hn ⟨Or.inr hm, h2⟩
    · simp only [h, Finset.mem_filter, List.mem_cons]
      constructor
      · rintro ⟨hc, hn⟩
        refine ⟨hc, ?_⟩
        rintro ⟨hm | hm, h2⟩
        · subst hm
          exact h h2
        · exact hn ⟨hm, h2⟩
      · rintro ⟨hc, hn⟩
        exact ⟨hc, fun ⟨hm, h2⟩ => hn ⟨Or.inr hm, h2⟩⟩

theorem speechFanOut_audioClients (audio : Bytes) (writeFails : Conn → Bool)
    (order : List Conn) (w : World) :
    (speechFanOut audio order writeFails w).audioClients = w.audioClients := by
  unfold speechFanOut
  induction order generalizing w with
  | nil => rfl
  | cons a t ih =>
    rw [List.foldl_cons, ih]
    unfold speechFanOutBody
    by_cases h2 : writeFails a = true <;> simp [h2]

theorem speechFanOut_sttCalls (audio : Bytes) (writeFails : Conn → Bool)
    (order : List Conn) (w : World) :
    (speechFanOut audio order writeFails w).sttCalls = w.sttCalls := by
  unfold speechFanOut
  induction order generalizing w with
  | nil => rfl
  | cons a t ih =>
    rw [List.foldl_cons, ih]
    unfold speechFanOutBody
    by_cases h2 : writeFails a = true <;> simp [h2]

theorem speechFanOut_writes (audio : Bytes) (writeFails : Conn → Bool)
    (order : List Conn) (w : World) :
    (speechFanOut audio order writeFails w).writes =
      w.writes ++ order.map (binaryFrame audio) := by
  unfold speechFanOut
  induction order generalizing w with
  | nil => simp
  | cons a t ih =>
    rw [List.foldl_cons, ih]
    unfold speechFanOutBody binaryFrame
    by_cases h2 : writeFails a = true <;> simp [h2]

theorem speechFanOut_closed (audio : Bytes) (writeFails : Conn → Bool)
    (order : List Conn) (w : World) (c : Conn) :
    c ∈ (speechFanOut audio order writeFails w).closed ↔
      c ∈ w.closed ∨ (c ∈ order ∧ writeFails c = true) := by
  unfold speechFanOut
  induction order generalizing w with
  | nil => simp
  | cons a t ih =>
    rw [List.foldl_cons, ih]
    unfold speechFanOutBody
    by_cases h2 : writeFails a = true
    · simp only [h2, if_true, Finset.mem_insert, List.mem_cons]
      constructor
      · rintro ((h | h) | ⟨hm, hf⟩)
        · subst h
          exact Or.inr ⟨Or.inl rfl, h2⟩
        · exact Or.inl h
        · exact Or.inr ⟨Or.inr hm, hf⟩
      · rintro (h | ⟨hm | hm, hf⟩)
        · exact Or.inl (Or.inr h)
        · exact Or.inl (Or.inl hm)
        · exact Or.inr ⟨hm, hf⟩
    · simp only [h2, List.mem_cons]
      constructor
      · rintro (h | ⟨hm, hf⟩)
        · exact Or.inl h
        · exact Or.inr ⟨Or.inr hm, hf⟩
      · rintro (h | ⟨hm | hm, hf⟩)
        · exact Or.inl h
        · subst hm
          exact absurd hf h2
        · exact Or.inr ⟨hm, hf⟩

theorem mem_of_isRangeOrder {order : List Conn} {m : Finset Conn}
    (h : IsRangeOrder order m) (c : Conn) : c ∈ order ↔ c ∈ m := by
  rw [← h.2, List.mem_toFinset]

theorem count_of_isRangeOrder {order : List Conn} {m : Finset Conn}
    (h : IsRangeOrder order m) (c : Conn) :
    order.count c = if c ∈ m then 1 else 0 := by
  by_cases hc : c ∈ m
  · rw [if_pos hc]
    exact List.count_eq_one_of_mem h.1 ((mem_of_isRangeOrder h c).2 hc)
  · rw [if_neg hc]
    exact List.count_eq_zero_of_not_mem (fun hm => hc ((mem_of_isRangeOrder h c).1 hm))

theorem handleChunk_writes (ws : Conn) (audio : Bytes)
    (orderA : List Conn) (failA : Conn → Bool)
    (orderS : List Conn) (failS : Conn → Bool) (w : World) :
    (handleChunk ws audio orderA failA orderS failS w).writes =
      w.writes ++ ((orderA.filter (fun c => c ≠ ws)).map (binaryFrame audio)
        ++ orderS.map (binaryFrame audio)) := by
  unfold handleChunk
  rw [speechFanOut_writes, audioFanOut_writes, List.append_assoc]

theorem handleChunk_audioClients (ws : Conn) (audio : Bytes)
    (orderA : List Conn) (failA : Conn → Bool)
    (orderS : List Conn) (failS : Conn → Bool) (w : World)
    (hA : IsRangeOrder orderA w.audioClients) :
    (handleChunk ws audio orderA failA orderS failS w).audioClients =
      w.audioClients.filter (fun c => ¬ (c ≠ ws ∧ failA c = true)) := by
  unfold handleChunk
  rw [speechFanOut_audioClients, audioFanOut_audioClients]
  ext c
  simp only [Finset.mem_filter]
  constructor
  · rintro ⟨hc, hn⟩
    exact ⟨hc, fun h2 => hn ⟨(mem_of_isRangeOrder hA c).2 hc, h2⟩⟩
  · rintro ⟨hc, hn⟩
    exact ⟨hc, fun h2 => hn h2.2⟩

theorem handleChunk_speechClients (ws : Conn) (audio : Bytes)
    (orderA : List Conn) (failA : Conn → Bool)
    (orderS : List Conn) (failS : Conn → Bool) (w : World)
    (hS : IsRangeOrder orderS w.speechClients) :
    (handleChunk ws audio orderA failA orderS failS w).speechClients =
      w.speechClients.filter (fun c => ¬ (failS c = true)) := by
  unfold handleChunk
  rw [speechFanOut_speechClients, audioFanOut_speechClients]
  ext c
  simp only [Finset.mem_filter]
  constructor
  · rintro ⟨hc, hn⟩
    exact ⟨hc, fun h2 => hn ⟨(mem_of_isRangeOrder hS c).2 hc, h2⟩⟩
  · rintro ⟨hc, hn⟩
    exact ⟨hc, fun h2 => hn h2.2⟩

/-- C1. Handling one inbound chunk with legal iteration orders of the two
pools appends to the write record exactly the frames `sent`: in loop order,
one binary frame carrying the unmodified chunk for each key of the audio
order other than the source, then one for each key of the speech order.
Hence every frame sent is a binary frame with the chunk as payload, and the
number of writes to any connection `c` is one for its membership in the audio
pool (unless it is the source) plus one for its membership in the speech pool:
no write goes to a connection outside the pools, and none to the source (the
source being a connection of the audio endpoint, not a speech-pool member).
The failure oracles `failA` and `failS` are arbitrary: the writes attempted
do not depend on which of them fail. -/
theorem C1_fanout_writes (w : World) (ws : Conn) (audio : Bytes)
    (orderA : List Conn) (failA : Conn → Bool)
    (orderS : List Conn) (failS : Conn → Bool)
    (hA : IsRangeOrder orderA w.audioClients)
    (hS : IsRangeOrder orderS w.speechClients) :
    ∃ sent : List Frame,
      (handleChunk ws audio orderA failA orderS failS w).writes = w.writes ++ sent ∧
      sent = (orderA.filter (fun c => c ≠ ws)).map (binaryFrame audio)
              ++ orderS.map (binaryFrame audio) ∧
      (∀ f ∈ sent, f.messageType = MessageType.BinaryMessage ∧ f.data = audio) ∧
      (∀ c, (sent.map Frame.client).count c =
        (if c ∈ w.audioClients ∧ c ≠ ws then 1 else 0)
          + (if c ∈ w.speechClients then 1 else 0)) ∧
      (∀ c, c ∉ w.audioClients → c ∉ w.speechClients → ∀ f ∈ sent, f.client ≠ c) ∧
      (ws ∉ w.speechClients → ∀ f ∈ sent, f.client ≠ ws) := by
  have hclient : ∀ l : List Conn, (l.map (binaryFrame audio)).map Frame.client = l := by
    intro l
    simp [binaryFrame, Function.comp_def]
  have hcount : ∀ c,
      ((((orderA.filter (fun c => c ≠ ws)).map (binaryFrame audio)
        ++ orderS.map (binaryFrame audio))).map Frame.client).count c =
        (if c ∈ w.audioClients ∧ c ≠ ws then 1 else 0)
          + (if c ∈ w.speechClients then 1 else 0) := by
    intro c
    rw [List.map_append, hclient, hclient, List.count_append, count_of_isRangeOrder hS]
    congr 1
    by_cases hne : c = ws
    · subst hne
      rw [List.count_eq_zero_of_not_mem (fun hm => by simpa using (List.mem_filter.1 hm).2)]
      simp
    · rw [List.count_filter (by simpa using hne), count_of_isRangeOrder hA]
      simp [hne]
  have hmem : ∀ c, (∃ f ∈ ((orderA.filter (fun c => c ≠ ws)).map (binaryFrame audio)
        ++ orderS.map (binaryFrame audio)), f.client = c) →
        (c ∈ w.audioClients ∧ c ≠ ws) ∨ c ∈ w.speechClients := by
    rintro c ⟨f, hf, rfl⟩
    rw [List.mem_append, List.mem_map, List.mem_map] at hf
    rcases hf with ⟨a, ha, rfl⟩ | ⟨a, ha, rfl⟩
    · rw [List.mem_filter] at ha
      exact Or.inl ⟨(mem_of_isRangeOrder hA a).1 ha.1, by simpa using ha.2⟩
    · exact Or.inr ((mem_of_isRangeOrder hS a).1 ha)
  refine ⟨_, handleChunk_writes ws audio orderA failA orderS failS w, rfl, ?_, hcount, ?_, ?_⟩
  · intro f hf
    rw [List.mem_append, List.mem_map, List.mem_map] at hf
    rcases hf with ⟨a, _, rfl⟩ | ⟨a, _, rfl⟩ <;> exact ⟨rfl, rfl⟩
  · intro c hca hcs f hf hfc
    rcases hmem c ⟨f, hf, hfc⟩ with h | h
    · exact hca h.1
    · exact hcs h
  · intro hws f hf hfc
    rcases hmem ws ⟨f, hf, hfc⟩ with h | h
    · exact h.2 rfl
    · exact hws h

/-- Witness for C1: audio connections 1 and 2 and speech connection 7 are
registered; connection 1 sends the chunk `[1, 2]`; the write to 2 fails.
Connection 2 and connection 7 are each written the chunk once, connection 1
is not written. -/
theorem C1_fanout_writes_witness :
    IsRangeOrder [2, 1] scenarioWorld.audioClients ∧
    IsRangeOrder [7] scenarioWorld.speechClients ∧
    ∃ sent : List Frame,
      (handleChunk 1 [1, 2] [2, 1] (fun c => c == 2) [7] (fun _ => false)
        scenarioWorld).writes = scenarioWorld.writes ++ sent ∧
      sent = [Frame.mk 2 .BinaryMessage [1, 2], Frame.mk 7 .BinaryMessage [1, 2]] ∧
      (sent.map Frame.client).count 1 = 0 := by
  refine ⟨by decide, by decide, ?_⟩
  obtain ⟨sent, h1, h2, -, h4, -, -⟩ :=
    C1_fanout_writes scenarioWorld 1 [1, 2] [2, 1] (fun c => c == 2) [7] (fun _ => false)
      (by decide) (by decide)
  refine ⟨sent, h1, ?_, ?_⟩
  · rw [h2]
    decide
  · rw [h4 1]
    decide

/-- C10. After both fan-out loops have run with legal iteration orders, the
audio pool is the earlier audio pool without exactly the members other than
the source whose write failed, and the speech pool is the earlier speech pool
without exactly the members whose write failed.  So the source stays, every
member whose write succeeded stays, nothing is added, and when every write
succeeds both pools are unchanged. -/
theorem C10_registries_after_broadcast (w : World) (ws : Conn) (audio : Bytes)
    (orderA : List Conn) (failA : Conn → Bool)
    (orderS : List Conn) (failS : Conn → Bool)
    (hA : IsRangeOrder orderA w.audioClients)
    (hS : IsRangeOrder orderS w.speechClients) :
    (handleChunk ws audio orderA failA orderS failS w).audioClients =
      w.audioClients.filter (fun c => ¬ (c ≠ ws ∧ failA c = true)) ∧
    (handleChunk ws audio orderA failA orderS failS w).speechClients =
      w.speechClients.filter (fun c => ¬ (failS c = true)) ∧
    (ws ∈ w.audioClients →
      ws ∈ (handleChunk ws audio orderA failA orderS failS w).audioClients) ∧
    (∀ c ∈ w.audioClients, failA c = false →
      c ∈ (handleChunk ws audio orderA failA orderS failS w).audioClients) ∧
    (∀ c ∈ w.speechClients, failS c = false →
      c ∈ (handleChunk ws audio orderA failA orderS failS w).speechClients) ∧
    (handleChunk ws audio orderA failA orderS failS w).audioClients ⊆ w.audioClients ∧
    (handleChunk ws audio orderA failA orderS failS w).speechClients ⊆ w.speechClients ∧
    ((∀ c ∈ w.audioClients, c ≠ ws → failA c = false) →
      (∀ c ∈ w.speechClients, failS c = false) →
      (handleChunk ws audio orderA failA orderS failS w).audioClients = w.audioClients ∧
      (handleChunk ws audio orderA failA orderS failS w).speechClients = w.speechClients) := by
  rw [handleChunk_audioClients ws audio orderA failA orderS failS w hA,
    handleChunk_speechClients ws audio orderA failA orderS failS w hS]
  refine ⟨rfl, rfl, ?_, ?_, ?_, Finset.filter_subset _ _, Finset.filter_subset _ _, ?_⟩
  · intro h
    exact Finset.mem_filter.2 ⟨h, fun h2 => h2.1 rfl⟩
  · intro c hc hf
    exact Finset.mem_filter.2 ⟨hc, fun h2 => by simp [hf] at h2⟩
  · intro c hc hf
    exact Finset.mem_filter.2 ⟨hc, fun h2 => by simp [hf] at h2⟩
  · intro h1 h2
    constructor
    · apply Finset.filter_true_of_mem
      intro c hc hcf
      have := h1 c hc hcf.1
      rw [hcf.2] at this
      exact Bool.noConfusion this
    · apply Finset.filter_true_of_mem
      intro c hc hcf
      have := h2 c hc
      rw [hcf] at this
      exact Bool.noConfusion this

/-- Witness for C10: audio pool `{1, 2, 3}`, speech pool `{7, 8}`, source 1;
the writes to 3 and to 8 fail. -/
theorem C10_registries_after_broadcast_witness :
    IsRangeOrder [3, 1, 2] poolsWorld.audioClients ∧
    IsRangeOrder [8, 7] poolsWorld.speechClients ∧
    (handleChunk 1 [9] [3, 1, 2] (fun c => c == 3 || c == 1) [8, 7] (fun c => c == 8)
      poolsWorld).audioClients = {1, 2} ∧
    (handleChunk 1 [9] [3, 1, 2] (fun c => c == 3 || c == 1) [8, 7] (fun c => c == 8)
      poolsWorld).speechClients = {7} := by
  have h := C10_registries_after_broadcast poolsWorld 1 [9] [3, 1, 2]
    (fun c => c == 3 || c == 1) [8, 7] (fun c => c == 8) (by decide) (by decide)
  refine ⟨by decide, by decide, ?_, ?_⟩
  · rw [h.1]
    decide
  · rw [h.2.1]
    decide

/-! ## The registry invariant -/

theorem step_audioClients (w : World) (e : Event) (c : Conn)
    (h : c ∈ (step w e).audioClients) :
    c ∈ w.audioClients ∨ e = Event.registerAudio c := by
  cases e with
  | registerAudio ws =>
    simp only [step, registerAudio, Finset.mem_insert] at h
    rcases h with h | h
    · exact Or.inr (by rw [h])
    · exact Or.inl h
  | registerSpeech ws => exact Or.inl h
  | audioFanOut ws audio order writeFails =>
    simp only [step, audioFanOut_audioClients, Finset.mem_filter] at h
    exact Or.inl h.1
  | speechFanOut audio order writeFails =>
    simp only [step, speechFanOut_audioClients] at h
    exact Or.inl h
  | audioTeardown ws =>
    simp only [step, audioTeardown, Finset.mem_erase] at h
    exact Or.inl h.2

theorem step_speechClients (w : World) (e : Event) (c : Conn)
    (h : c ∈ (step w e).speechClients) :
    c ∈ w.speechClients ∨ e = Event.registerSpeech c := by
  cases e with
  | registerAudio ws => exact Or.inl h
  | registerSpeech ws =>
    simp only [step, registerSpeech, Finset.mem_insert] at h
    rcases h with h | h
    · exact Or.inr (by rw [h])
    · exact Or.inl h
  | audioFanOut ws audio order writeFails =>
    simp only [step, audioFanOut_speechClients] at h
    exact Or.inl h
  | speechFanOut audio order writeFails =>
    simp only [step, speechFanOut_speechClients, Finset.mem_filter] at h
    exact Or.inl h.1
  | audioTeardown ws => exact Or.inl h

theorem step_disjoint (w : World) (e : Event) (hen : e.enabled w)
    (h : ∀ c, ¬ (c ∈ w.audioClients ∧ c ∈ w.speechClients)) :
    ∀ c, ¬ (c ∈ (step w e).audioClients ∧ c ∈ (step w e).speechClients) := by
  rintro c ⟨ha, hs⟩
  rcases step_audioClients w e c ha with ha1 | rfl
  · rcases step_speechClients w e c hs with hs1 | rfl
    · exact h c ⟨ha1, hs1⟩
    · exact hen.1 ha1
  · rcases step_speechClients w _ c hs with hs1 | h2
    · exact hen.2 hs1
    · exact Event.noConfusion h2

/-- C4. In every state reachable from two empty registries by registrations
of newly upgraded connections, fan-out loops (with their evictions) and audio
teardowns, no connection is a member of both `audioClients` and
`speechClients`. -/
theorem C4_registry_disjoint (w : World) (h : Reachable w) :
    ∀ c, ¬ (c ∈ w.audioClients ∧ c ∈ w.speechClients) := by
  induction h with
  | init => simp [World.init]
  | step e _ hen ih => exact step_disjoint _ e hen ih

/-- Witness for C4: the state after two audio registrations, a speech
registration, an audio fan-out that evicts connection 2, and the teardown
of connection 1. -/
theorem C4_registry_disjoint_witness :
    Reachable reachedWorld ∧
    ∀ c, ¬ (c ∈ reachedWorld.audioClients ∧ c ∈ reachedWorld.speechClients) := by
  have hr : Reachable reachedWorld :=
    Reachable.step (.audioTeardown 1)
      (Reachable.step (.audioFanOut 1 [5] [2, 1] (fun _ => true))
        (Reachable.step (.registerSpeech 7)
          (Reachable.step (.registerAudio 2)
            (Reachable.step (.registerAudio 1) Reachable.init (by decide))
            (by decide))
          (by decide))
        (by decide))
      trivial
  exact ⟨hr, C4_registry_disjoint reachedWorld hr⟩

/-! ## Eviction -/

theorem step_writes (w : World) (e : Event) (hen : e.enabled w) :
    ∃ sent : List Frame, (step w e).writes = w.writes ++ sent ∧
      ∀ f ∈ sent, f.client ∈ w.audioClients ∨ f.client ∈ w.speechClients := by
  cases e with
  | registerAudio ws => exact ⟨[], by simp [step, registerAudio], by simp⟩
  | registerSpeech ws => exact ⟨[], by simp [step, registerSpeech], by simp⟩
  | audioFanOut ws audio order writeFails =>
    refine ⟨_, audioFanOut_writes ws audio writeFails order w, ?_⟩
    intro f hf
    rw [List.mem_map] at hf
    obtain ⟨a, ha, rfl⟩ := hf
    exact Or.inl ((mem_of_isRangeOrder hen a).1 (List.mem_filter.1 ha).1)
  | speechFanOut audio order writeFails =>
    refine ⟨_, speechFanOut_writes audio writeFails order w, ?_⟩
    intro f hf
    rw [List.mem_map] at hf
    obtain ⟨a, ha, rfl⟩ := hf
    exact Or.inr ((mem_of_isRangeOrder hen a).1 ha)
  | audioTeardown ws => exact ⟨[], by simp [step, audioTeardown], by simp⟩

theorem run_writes_avoid (P : Conn) (evs : List Event) (w : World)
    (hv : Valid w evs) (hother : ∀ e ∈ evs, e.registered ≠ some P)
    (hPa : P ∉ w.audioClients) (hPs : P ∉ w.speechClients) :
    ∃ later : List Frame, (run w evs).writes = w.writes ++ later ∧
      ∀ f ∈ later, f.client ≠ P := by
  induction evs generalizing w with
  | nil => exact ⟨[], by simp [run], by simp⟩
  | cons e t ih =>
    obtain ⟨hen, hvt⟩ := hv
    have hne : e.registered ≠ some P := hother e (List.mem_cons_self _ _)
    have hPa1 : P ∉ (step w e).audioClients := by
      intro h
      rcases step_audioClients w e P h with h1 | h1
      · exact hPa h1
      · exact hne (by rw [h1]; rfl)
    have hPs1 : P ∉ (step w e).speechClients := by
      intro h
      rcases step_speechClients w e P h with h1 | h1
      · exact hPs h1
      · exact hne (by rw [h1]; rfl)
    obtain ⟨later, hl, hlP⟩ :=
      ih (step w e) hvt (fun e1 he1 => hother e1 (List.mem_cons_of_mem _ he1)) hPa1 hPs1
    obtain ⟨sent, hs, hsP⟩ := step_writes w e hen
    refine ⟨sent ++ later, ?_, ?_⟩
    · show (run (step w e) t).writes = _
      rw [hl, hs, List.append_assoc]
    · intro f hf
      rcases List.mem_append.1 hf with h | h
      · intro hfP
        rcases hsP f h with h1 | h1
        · exact hPa (hfP ▸ h1)
        · exact hPs (hfP ▸ h1)
      · exact hlP f h

/-- C2. Take a state in which no connection is in both pools, and a broadcast
(legal iteration orders) in which the write to `P` fails, in the audio loop or
in the speech loop.  When the broadcast finishes `P` is closed and is a
member of neither registry.  After that, over any sequence of enabled steps
(fan-out loops of further chunks with their evictions, registrations,
teardowns) that does not register `P` again, every write attempted goes to a
connection other than `P`. -/
theorem C2_eviction (w : World) (ws : Conn) (audio : Bytes)
    (orderA : List Conn) (failA : Conn → Bool)
    (orderS : List Conn) (failS : Conn → Bool) (P : Conn) (evs : List Event)
    (hdisj : ∀ c, ¬ (c ∈ w.audioClients ∧ c ∈ w.speechClients))
    (hA : IsRangeOrder orderA w.audioClients)
    (hS : IsRangeOrder orderS w.speechClients)
    (hfail : (P ∈ w.audioClients ∧ P ≠ ws ∧ failA P = true) ∨
      (P ∈ w.speechClients ∧ failS P = true))
    (hv : Valid (handleChunk ws audio orderA failA orderS failS w) evs)
    (hother : ∀ e ∈ evs, e.registered ≠ some P) :
    P ∈ (handleChunk ws audio orderA failA orderS failS w).closed ∧
    P ∉ (handleChunk ws audio orderA failA orderS failS w).audioClients ∧
    P ∉ (handleChunk ws audio orderA failA orderS failS w).speechClients ∧
    ∃ later : List Frame,
      (run (handleChunk ws audio orderA failA orderS failS w) evs).writes =
        (handleChunk ws audio orderA failA orderS failS w).writes ++ later ∧
      ∀ f ∈ later, f.client ≠ P := by
  have hPa : P ∉ (handleChunk ws audio orderA failA orderS failS w).audioClients := by
    rw [handleChunk_audioClients ws audio orderA failA orderS failS w hA, Finset.mem_filter]
    rintro ⟨hm, hn⟩
    rcases hfail with h | h
    · exact hn h.2
    · exact hdisj P ⟨hm, h.1⟩
  have hPs : P ∉ (handleChunk ws audio orderA failA orderS failS w).speechClients := by
    rw [handleChunk_speechClients ws audio orderA failA orderS failS w hS, Finset.mem_filter]
    rintro ⟨hm, hn⟩
    rcases hfail with h | h
    · exact hdisj P ⟨h.1, hm⟩
    · exact hn h.2
  refine ⟨?_, hPa, hPs, run_writes_avoid P evs _ hv hother hPa hPs⟩
  unfold handleChunk
  rw [speechFanOut_closed, audioFanOut_closed]
  rcases hfail with h | h
  · exact Or.inl (Or.inr ⟨(mem_of_isRangeOrder hA P).2 h.1, h.2⟩)
  · exact Or.inr ⟨(mem_of_isRangeOrder hS P).2 h.1, h.2⟩

/-- Witness for C2: audio connections 1 and 2 and speech connection 7 are
registered; the write of a chunk of connection 1 to connection 2 fails.
Afterwards connection 3 registers and sends a chunk, then connection 1 sends
another one. -/
theorem C2_eviction_witness :
    (∀ c, ¬ (c ∈ scenarioWorld.audioClients ∧ c ∈ scenarioWorld.speechClients)) ∧
    2 ∈ (handleChunk 1 [1, 2] [2, 1] (fun c => c == 2) [7] (fun _ => false)
      scenarioWorld).closed ∧
    2 ∉ (handleChunk 1 [1, 2] [2, 1] (fun c => c == 2) [7] (fun _ => false)
      scenarioWorld).audioClients ∧
    ∃ later : List Frame,
      (run (handleChunk 1 [1, 2] [2, 1] (fun c => c == 2) [7] (fun _ => false)
        scenarioWorld) laterEvents).writes =
        (handleChunk 1 [1, 2] [2, 1] (fun c => c == 2) [7] (fun _ => false)
          scenarioWorld).writes ++ later ∧
      ∀ f ∈ later, f.client ≠ 2 := by
  have hd : ∀ c, ¬ (c ∈ scenarioWorld.audioClients ∧ c ∈ scenarioWorld.speechClients) := by
    rintro c ⟨ha, hs⟩
    have hc : c = 7 := by simpa [scenarioWorld, World.init] using hs
    subst hc
    revert ha
    decide
  have h := C2_eviction scenarioWorld 1 [1, 2] [2, 1] (fun c => c == 2) [7] (fun _ => false)
    2 laterEvents hd (by decide) (by decide) (Or.inl (by decide))
    (by
      simp only [laterEvents, Valid]
      decide)
    (by
      intro e he
      simp only [laterEvents, List.mem_cons, List.mem_singleton, List.not_mem_nil,
        or_false] at he
      rcases he with rfl | rfl | rfl | rfl <;> simp [Event.registered])
  exact ⟨hd, h.1, h.2.1, h.2.2.2⟩

/-! ## The windowed transcription buffer -/

theorem fragmentRest_sttCalls (stt : Bytes → SttResult) (writeFails : Bool) (ws : Conn)
    (audioData : Bytes) (w : World) :
    (fragmentRest stt writeFails ws audioData w).sttCalls =
      w.sttCalls ++ [audioData].filter (fun d => d ≠ []) := by
  unfold fragmentRest
  cases audioData with
  | nil => simp
  | cons b t =>
    cases h : stt (b :: t) with
    | error e => simp
    | ok text => cases writeFails <;> simp

theorem speechRun_append (s : World × SpeechConn) (a b : List SpeechEvent) :
    speechRun s (a ++ b) = speechRun (speechRun s a) b := by
  unfold speechRun
  rw [List.foldl_append]

theorem speechRun_recv (chunks : List Bytes) (w : World) (ws : Conn) (buf : Bytes) (t : Bool) :
    speechRun (w, ⟨ws, buf, t, true⟩) (chunks.map SpeechEvent.recv) =
      (w, ⟨ws, buf ++ chunks.flatten, t, true⟩) := by
  induction chunks generalizing buf with
  | nil => simp [speechRun]
  | cons c cs ih =>
    have h := ih (buf ++ c)
    unfold speechRun at h ⊢
    rw [List.map_cons, List.foldl_cons]
    simp only [speechStep, if_true]
    rw [h, List.flatten_cons, List.append_assoc]

theorem speechRun_window (win : List Bytes × (Bytes → SttResult) × Bool)
    (w : World) (ws : Conn) (buf : Bytes) :
    speechRun (w, ⟨ws, buf, true, true⟩) (windowEvents win) =
      (fragmentRest win.2.1 win.2.2 ws (buf ++ win.1.flatten) w, ⟨ws, [], true, true⟩) := by
  unfold windowEvents
  rw [speechRun_append, speechRun_recv]
  simp [speechRun, speechStep, processAudioFragment]

theorem speechRun_windows (wins : List (List Bytes × (Bytes → SttResult) × Bool))
    (w : World) (ws : Conn) :
    ∃ w1 : World,
      speechRun (w, ⟨ws, [], true, true⟩) (wins.flatMap windowEvents) =
        (w1, ⟨ws, [], true, true⟩) ∧
      w1.sttCalls =
        w.sttCalls ++ (wins.map (fun win => win.1.flatten)).filter (fun d => d ≠ []) := by
  induction wins generalizing w with
  | nil => exact ⟨w, by simp [speechRun], by simp⟩
  | cons win t ih =>
    obtain ⟨w1, h1, h2⟩ := ih (fragmentRest win.2.1 win.2.2 ws win.1.flatten w)
    refine ⟨w1, ?_, ?_⟩
    · rw [List.flatMap_cons, speechRun_append, speechRun_window, List.nil_append, h1]
    · rw [h2, fragmentRest_sttCalls, List.map_cons, List.append_assoc]
      congr 1
      by_cases hw : win.1.flatten = [] <;> simp [List.filter_cons, hw]

/-- C5. On a speech connection whose appends and `processAudioFragment`
calls run as uninterrupted steps, let the events after the connection is
opened be any sequence of windows (each: the chunks received, then a tick)
followed by further chunks `rest`.  Then the transcription calls made are, in
order, the concatenations of the chunks of each window that received at least
one byte (an empty window makes no call); the buffer is empty right after the
last tick, and at the end it holds exactly the chunks received since the last
tick.  In particular for 5 bytes, a tick, 3 bytes, a tick, transcription is
called twice: with the 5 bytes, then with the 3 bytes. -/
theorem C5_window_exactness (w : World) (ws : Conn)
    (wins : List (List Bytes × (Bytes → SttResult) × Bool)) (rest : List Bytes) :
    (HandleSpeechProcessing ws
        (wins.flatMap windowEvents ++ rest.map SpeechEvent.recv) w).1.sttCalls =
      w.sttCalls ++ (wins.map (fun win => win.1.flatten)).filter (fun d => d ≠ []) ∧
    (HandleSpeechProcessing ws (wins.flatMap windowEvents) w).2.audioBuffer = [] ∧
    (HandleSpeechProcessing ws
        (wins.flatMap windowEvents ++ rest.map SpeechEvent.recv) w).2.audioBuffer =
      rest.flatten ∧
    (∀ (d1 d2 : Bytes) (stt1 stt2 : Bytes → SttResult) (wf1 wf2 : Bool),
      d1.length = 5 → d2.length = 3 →
      (HandleSpeechProcessing ws
        [SpeechEvent.recv d1, SpeechEvent.tick stt1 wf1,
          SpeechEvent.recv d2, SpeechEvent.tick stt2 wf2] w).1.sttCalls =
        w.sttCalls ++ [d1, d2]) := by
  obtain ⟨w1, h1, h2⟩ := speechRun_windows wins (registerSpeech ws w) ws
  have hreg : (registerSpeech ws w).sttCalls = w.sttCalls := rfl
  unfold HandleSpeechProcessing
  refine ⟨?_, ?_, ?_, ?_⟩
  · rw [speechRun_append]
    unfold speechOpen
    rw [h1, speechRun_recv, h2, hreg]
  · unfold speechOpen
    rw [h1]
  · rw [speechRun_append]
    unfold speechOpen
    rw [h1, speechRun_recv, List.nil_append]
  · intro d1 d2 stt1 stt2 wf1 wf2 hd1 hd2
    have e1 : d1 ≠ [] := by
      intro h
      rw [h] at hd1
      exact absurd hd1 (by decide)
    have e2 : d2 ≠ [] := by
      intro h
      rw [h] at hd2
      exact absurd hd2 (by decide)
    have hw := speechRun_windows [([d1], stt1, wf1), ([d2], stt2, wf2)] (registerSpeech ws w) ws
    obtain ⟨w2, h3, h4⟩ := hw
    have hev : [([d1], stt1, wf1), ([d2], stt2, wf2)].flatMap windowEvents =
        [SpeechEvent.recv d1, SpeechEvent.tick stt1 wf1,
          SpeechEvent.recv d2, SpeechEvent.tick stt2 wf2] := by
      simp [windowEvents, List.flatMap_cons]
    rw [hev] at h3
    unfold speechOpen
    rw [h3, h4, hreg]
    simp [e1, e2]

/-- C7. A call of `processAudioFragment` on an empty buffer makes no
transcription call, writes no frame, closes nothing, leaves both registries
as they are and leaves the buffer empty.  Hence of two consecutive ticks on a
speech connection with nothing appended in between, the second makes no
transcription call and writes no frame. -/
theorem C7_empty_window (stt : Bytes → SttResult) (writeFails : Bool) (ws : Conn)
    (w : World) :
    (processAudioFragment stt writeFails ws w []).1.sttCalls = w.sttCalls ∧
    (processAudioFragment stt writeFails ws w []).1.writes = w.writes ∧
    (processAudioFragment stt writeFails ws w []).1.closed = w.closed ∧
    (processAudioFragment stt writeFails ws w []).1.audioClients = w.audioClients ∧
    (processAudioFragment stt writeFails ws w []).1.speechClients = w.speechClients ∧
    (processAudioFragment stt writeFails ws w []).2 = [] ∧
    (∀ (s : World × SpeechConn) (stt1 stt2 : Bytes → SttResult) (wf1 wf2 : Bool),
      (speechRun s [SpeechEvent.tick stt1 wf1, SpeechEvent.tick stt2 wf2]).1.sttCalls =
        (speechRun s [SpeechEvent.tick stt1 wf1]).1.sttCalls ∧
      (speechRun s [SpeechEvent.tick stt1 wf1, SpeechEvent.tick stt2 wf2]).1.writes =
        (speechRun s [SpeechEvent.tick stt1 wf1]).1.writes) := by
  refine ⟨rfl, rfl, rfl, rfl, rfl, rfl, ?_⟩
  intro s stt1 stt2 wf1 wf2
  obtain ⟨w0, sc⟩ := s
  by_cases ht : sc.tickerRunning = true
  · simp [speechRun, speechStep, ht, processAudioFragment, fragmentRest]
  · simp [speechRun, speechStep, ht]

/-- C8. When the transcription call of a non-empty window returns an error,
`processAudioFragment` has made that one call, writes no frame, closes no
connection, changes neither registry and leaves the buffer empty.  If chunks
with at least one byte are then appended, the next tick makes one further
transcription call, whose argument is exactly the concatenation of those
chunks. -/
theorem C8_transcription_failure (stt : Bytes → SttResult) (writeFails : Bool) (ws : Conn)
    (w : World) (buf : Bytes) (hbuf : buf ≠ []) (herr : stt buf = Except.error ()) :
    (processAudioFragment stt writeFails ws w buf).1.sttCalls = w.sttCalls ++ [buf] ∧
    (processAudioFragment stt writeFails ws w buf).1.writes = w.writes ∧
    (processAudioFragment stt writeFails ws w buf).1.closed = w.closed ∧
    (processAudioFragment stt writeFails ws w buf).1.audioClients = w.audioClients ∧
    (processAudioFragment stt writeFails ws w buf).1.speechClients = w.speechClients ∧
    (processAudioFragment stt writeFails ws w buf).2 = [] ∧
    (∀ (chunks : List Bytes) (stt2 : Bytes → SttResult) (wf2 : Bool),
      chunks.flatten ≠ [] →
      (speechRun (w, ⟨ws, buf, true, true⟩)
        ([SpeechEvent.tick stt writeFails] ++ chunks.map SpeechEvent.recv
          ++ [SpeechEvent.tick stt2 wf2])).1.sttCalls =
        w.sttCalls ++ [buf] ++ [chunks.flatten]) := by
  have hlen : ¬ (buf.length = 0) := fun h => hbuf (List.length_eq_zero.1 h)
  have hw : (processAudioFragment stt writeFails ws w buf).1 =
      { w with sttCalls := w.sttCalls ++ [buf], logged := w.logged ++ [.errTranscribe] } := by
    simp only [processAudioFragment, fragmentRest, hlen, if_false, herr]
  refine ⟨by rw [hw], by rw [hw], by rw [hw], by rw [hw], by rw [hw], rfl, ?_⟩
  intro chunks stt2 wf2 hne
  have h1 : speechRun (w, ⟨ws, buf, true, true⟩) [SpeechEvent.tick stt writeFails] =
      ((processAudioFragment stt writeFails ws w buf).1, ⟨ws, [], true, true⟩) := by
    simp [speechRun, speechStep, processAudioFragment]
  have h2 := speechRun_window (chunks, stt2, wf2)
    (processAudioFragment stt writeFails ws w buf).1 ws []
  unfold windowEvents at h2
  rw [List.append_assoc, speechRun_append, h1, h2, fragmentRest_sttCalls, hw]
  simp [hne]

/-- Witness for C8: the buffer holds `[1, 2]` and the transcription service
fails on every input. -/
theorem C8_transcription_failure_witness :
    ([1, 2] : Bytes) ≠ [] ∧
    (processAudioFragment (fun _ => Except.error ()) false 7 scenarioWorld [1, 2]).1.writes
      = scenarioWorld.writes ∧
    (processAudioFragment (fun _ => Except.error ()) false 7 scenarioWorld [1, 2]).1.closed
      = scenarioWorld.closed ∧
    (processAudioFragment (fun _ => Except.error ()) false 7 scenarioWorld [1, 2]).2 = [] := by
  have h := C8_transcription_failure (fun _ => Except.error ()) false 7 scenarioWorld [1, 2]
    (by decide) rfl
  exact ⟨by decide, h.2.1, h.2.2.1, h.2.2.2.2.2.1⟩

/-- C9. When the transcription call of a non-empty window returns the text
`t`, `processAudioFragment` attempts exactly one write: a text frame with
payload `t` on the connection `ws` it was called for.  Whether or not that
write fails (`writeFails` is arbitrary), no connection is closed and neither
registry changes; the buffer is left empty. -/
theorem C9_transcription_success (stt : Bytes → SttResult) (writeFails : Bool) (ws : Conn)
    (w : World) (buf t : Bytes) (hbuf : buf ≠ []) (hok : stt buf = Except.ok t) :
    (processAudioFragment stt writeFails ws w buf).1.writes =
      w.writes ++ [Frame.mk ws MessageType.TextMessage t] ∧
    (processAudioFragment stt writeFails ws w buf).1.sttCalls = w.sttCalls ++ [buf] ∧
    (processAudioFragment stt writeFails ws w buf).1.closed = w.closed ∧
    (processAudioFragment stt writeFails ws w buf).1.audioClients = w.audioClients ∧
    (processAudioFragment stt writeFails ws w buf).1.speechClients = w.speechClients ∧
    (processAudioFragment stt writeFails ws w buf).2 = [] := by
  have hlen : ¬ (buf.length = 0) := fun h => hbuf (List.length_eq_zero.1 h)
  cases writeFails <;>
    simp [processAudioFragment, fragmentRest, hlen, hok]

/-- Witness for C9: the buffer holds `[1, 2]`, the transcription is the text
with bytes `[104, 105]`, and the write of the text frame fails. -/
theorem C9_transcription_success_witness :
    ([1, 2] : Bytes) ≠ [] ∧
    (processAudioFragment (fun _ => Except.ok [104, 105]) true 7 scenarioWorld [1, 2]).1.writes
      = scenarioWorld.writes ++ [Frame.mk 7 MessageType.TextMessage [104, 105]] ∧
    (processAudioFragment (fun _ => Except.ok [104, 105]) true 7 scenarioWorld [1, 2]).1.closed
      = scenarioWorld.closed := by
  have h := C9_transcription_success (fun _ => Except.ok [104, 105]) true 7 scenarioWorld
    [1, 2] [104, 105] (by decide) rfl
  exact ⟨by decide, h.1, h.2.2.1⟩

/-! ## Teardown -/

/-- After the teardown of an audio connection it is closed and is not in
`audioClients`; it is in neither pool when it was not a speech-pool member. -/
theorem audioTeardown_not_member (ws : Conn) (w : World) :
    ws ∉ (audioTeardown ws w).audioClients ∧
    ws ∈ (audioTeardown ws w).closed ∧
    (ws ∉ w.speechClients → ws ∉ (audioTeardown ws w).speechClients) := by
  simp [audioTeardown]

theorem handleChunk_speechClients_subset (ws : Conn) (audio : Bytes)
    (orderA : List Conn) (failA : Conn → Bool)
    (orderS : List Conn) (failS : Conn → Bool) (w : World) :
    (handleChunk ws audio orderA failA orderS failS w).speechClients ⊆ w.speechClients := by
  unfold handleChunk
  rw [speechFanOut_speechClients, audioFanOut_speechClients]
  exact Finset.filter_subset _ _

/-- When `HandleAudioConnections` has returned after a read failure, its
connection is closed and is not in `audioClients`; it is in neither pool when
it was not a speech-pool member at the start. -/
theorem HandleAudioConnections_teardown (ws : Conn) (reads : List AudioRead) (w : World) :
    ws ∉ (HandleAudioConnections ws reads w).audioClients ∧
    ws ∈ (HandleAudioConnections ws reads w).closed ∧
    (ws ∉ w.speechClients → ws ∉ (HandleAudioConnections ws reads w).speechClients) := by
  refine ⟨by simp [HandleAudioConnections, audioTeardown],
    by simp [HandleAudioConnections, audioTeardown], ?_⟩
  intro hws
  have hsub : ∀ (rs : List AudioRead) (w1 : World),
      (rs.foldl
        (fun w2 r => handleChunk ws r.audioData r.orderA r.failA r.orderS r.failS w2)
        w1).speechClients ⊆ w1.speechClients := by
    intro rs
    induction rs with
    | nil => intro w1; exact Finset.Subset.refl _
    | cons r t ih =>
      intro w1
      rw [List.foldl_cons]
      exact (ih _).trans (handleChunk_speechClients_subset _ _ _ _ _ _ _)
  intro h
  have h1 := hsub reads (registerAudio ws w) h
  exact hws h1

/-- A read error on a speech connection changes neither registry, closes
nothing and leaves the ticker running. -/
theorem speechStep_readErr (w : World) (sc : SpeechConn) :
    (speechStep (w, sc) SpeechEvent.readErr).1.speechClients = w.speechClients ∧
    (speechStep (w, sc) SpeechEvent.readErr).1.audioClients = w.audioClients ∧
    (speechStep (w, sc) SpeechEvent.readErr).1.closed = w.closed ∧
    (speechStep (w, sc) SpeechEvent.readErr).2.tickerRunning = sc.tickerRunning ∧
    (speechStep (w, sc) SpeechEvent.readErr).2.audioBuffer = sc.audioBuffer := by
  unfold speechStep
  cases sc.readerRunning <;> simp

/-- C3, speech connection, evaluated: connection 7 opens a speech session,
sends the chunk `[1, 2]`, and then its read fails.  After the read failure
connection 7 is still a member of `speechClients`, it has not been closed and
its ticker is still running; the next tick still processes a window (a
transcription call on `[1, 2]` and a text frame written to connection 7). -/
theorem C3_speech_read_failure_no_teardown :
    7 ∈ (HandleSpeechProcessing 7
      [SpeechEvent.recv [1, 2], SpeechEvent.readErr] World.init).1.speechClients ∧
    7 ∉ (HandleSpeechProcessing 7
      [SpeechEvent.recv [1, 2], SpeechEvent.readErr] World.init).1.closed ∧
    (HandleSpeechProcessing 7
      [SpeechEvent.recv [1, 2], SpeechEvent.readErr] World.init).2.tickerRunning = true ∧
    (HandleSpeechProcessing 7
      [SpeechEvent.recv [1, 2], SpeechEvent.readErr,
        SpeechEvent.tick (fun _ => Except.ok [104]) false] World.init).1.sttCalls = [[1, 2]] ∧
    (HandleSpeechProcessing 7
      [SpeechEvent.recv [1, 2], SpeechEvent.readErr,
        SpeechEvent.tick (fun _ => Except.ok [104]) false] World.init).1.writes =
      [Frame.mk 7 MessageType.TextMessage [104]] := by
  decide

/-! ## The drain at statement granularity -/

/-- A copy immediately followed by the reset of the same goroutine is the
uninterrupted `processAudioFragment`. -/
theorem fineStep_copy_reset (s : FineState) (g : Nat) (stt : Bytes → SttResult)
    (writeFails : Bool) :
    (fineStep (fineStep s (FineEvent.copy g)) (FineEvent.reset g stt writeFails)).world =
      (processAudioFragment stt writeFails s.conn.ws s.world s.conn.audioBuffer).1 ∧
    (fineStep (fineStep s (FineEvent.copy g)) (FineEvent.reset g stt writeFails)).conn.audioBuffer
      = (processAudioFragment stt writeFails s.conn.ws s.world s.conn.audioBuffer).2 := by
  simp [fineStep, processAudioFragment, List.lookup]

/-- C6, evaluated: on a speech connection the reader appends `[1]`, a
`processAudioFragment` goroutine copies the buffer, the reader appends `[2]`,
and the goroutine then resets the buffer and proceeds.  The transcription
service is handed `[1]` only and the buffer is empty: the byte `2` that was
received is neither transcribed nor kept.  With two overlapping goroutines
that both copy before either resets, the byte `1` is handed over twice. -/
theorem C6_interleaved_drain_loses_bytes :
    (fineRun (FineState.mk World.init (speechOpen 7 World.init).2 [])
      [FineEvent.recv [1], FineEvent.copy 0, FineEvent.recv [2],
        FineEvent.reset 0 (fun _ => Except.ok []) false]).world.sttCalls = [[1]] ∧
    (fineRun (FineState.mk World.init (speechOpen 7 World.init).2 [])
      [FineEvent.recv [1], FineEvent.copy 0, FineEvent.recv [2],
        FineEvent.reset 0 (fun _ => Except.ok []) false]).conn.audioBuffer = [] ∧
    (fineRun (FineState.mk World.init (speechOpen 7 World.init).2 [])
      [FineEvent.recv [1], FineEvent.copy 0, FineEvent.copy 1,
        FineEvent.reset 0 (fun _ => Except.ok []) false,
        FineEvent.reset 1 (fun _ => Except.ok []) false]).world.sttCalls = [[1], [1]] := by
  decide

end Walkie
